import Mathlib

/-
Verification of the CVODES integrator interface and the band SUNMatrix module.

Scalars: the C `realtype` (a floating-point type) is modelled as `ℚ`, and
`long int` / `int` as `ℤ` (no overflow is relevant to the claims below).
Heap array contents are modelled as total functions `ℤ → ℚ` (an index outside
the allocated range reads unspecified values, like C reads of unallocated
memory read garbage) and array stores as pointwise functional update.
-/

namespace Sundials

/- ================================================================
   Return codes, from src/cvodes/include/cvodes.h.
   ================================================================ -/

/- CVode return values (cvodes.h line 775). -/

def SUCCESS : Int := 0

def TSTOP_RETURN : Int := 1

def CVODE_NO_MEM : Int := -1

def CVODE_NO_MALLOC : Int := -2

def ILL_INPUT : Int := -3

def TOO_MUCH_WORK : Int := -4

def TOO_MUCH_ACC : Int := -5

def ERR_FAILURE : Int := -6

def CONV_FAILURE : Int := -7

def SETUP_FAILURE : Int := -8

def SOLVE_FAILURE : Int := -9

/- CVodeGet* return values (cvodes.h line 1055). -/

def OKAY : Int := 0

def CVG_NO_MEM : Int := -1

def CVG_NO_SLDET : Int := -2

def BAD_K : Int := -3

def BAD_T : Int := -4

def BAD_DKY : Int := -5

def BAD_IS : Int := -6

/- CVodeReInit return values (cvodes.h line 454). -/

def CVREI_NO_MEM : Int := -1

def CVREI_NO_MALLOC : Int := -2

def CVREI_ILL_INPUT : Int := -3

/- ================================================================
   Band SUNMatrix module, from src/src/sunmat_band/sunmatrix_band.c
   and src/include/sunmatrix/sunmatrix_band.h.
   ================================================================ -/

/-- Matrix implementation identifiers (sundials_matrix.h); only the band
identifier matters here, the others stand in for non-band implementations. -/
inductive SUNMatrix_ID where
| SUNMATRIX_DENSE
| SUNMATRIX_BAND
| SUNMATRIX_SPARSE
| SUNMATRIX_CUSTOM
deriving DecidableEq

/-- Vector implementation identifiers (nvector headers); the band matvec
supports SERIAL, OPENMP, and PTHREADS vectors. -/
inductive N_Vector_ID where
| SUNDIALS_NVEC_SERIAL
| SUNDIALS_NVEC_OPENMP
| SUNDIALS_NVEC_PTHREADS
| SUNDIALS_NVEC_PARALLEL
deriving DecidableEq

/-- An N_Vector: its implementation id, its length (NV_LENGTH_S and friends),
and its data array. -/
structure NVector where
  id : N_Vector_ID
  length : Int
  data : Int → ℚ

/-- Content of a band SUNMatrix: struct _SUNMatrixContent_Band
(sunmatrix_band.h line 89).  The field `cols` gives, for each column index j,
the index into `data` of the first stored element of column j (in C, `cols[j]`
is the pointer `data + j*colSize` set by the constructor; here we keep the
offset from `data`). -/
structure SUNMatrixContent_Band where
  M : Int
  N : Int
  ldim : Int
  mu : Int
  ml : Int
  s_mu : Int
  data : Int → ℚ
  ldata : Int
  cols : Int → Int

/-- A generic SUNMatrix whose getid operation reports `id`.  Only the band
content is modelled; for a non-band `id` the content is never inspected by
the band module (every operation bails out on the id check first). -/
structure SUNMatrix where
  id : SUNMatrix_ID
  content : SUNMatrixContent_Band

/-- SUNMatrixGetID dispatches to ops->getid, which for a band matrix is
SUNMatrixGetID_Band returning SUNMATRIX_BAND; we model the stored result. -/
def SUNMatrixGetID (A : SUNMatrix) : SUNMatrix_ID := A.id

/-- Pointwise store into an array modelled as a function. -/
def upd (f : Int → ℚ) (i : Int) (v : ℚ) : Int → ℚ :=
  fun k => if k = i then v else f k

/-- SM_ELEMENT_B(A,i,j) = (SM_CONTENT_B(A)->cols)[j][(i)-(j)+SM_SUBAND_B(A)]
(sunmatrix_band.h line 204). -/
def SM_ELEMENT_B (A : SUNMatrix) (i j : Int) : ℚ :=
  A.content.data (A.content.cols j + (i - j) + A.content.s_mu)

/-- SUNMatrixNew_Band (sunmatrix_band.c line 60).  Returns none exactly when
the C function returns NULL on the illegal-dimension guard at line 68; the
`mem` argument models the (uninitialized) content of the malloc'd data block,
since a successful malloc is assumed. -/
def SUNMatrixNew_Band (N mu ml smu : Int) (mem : Int → ℚ) : Option SUNMatrix :=
  if N ≤ 0 ∨ smu < 0 ∨ ml < 0 then none
  else
    some { id := SUNMatrix_ID.SUNMATRIX_BAND
         , content :=
           { M := N
           , N := N
           , mu := mu
           , ml := ml
           , s_mu := smu
           , ldim := smu + ml + 1
           , data := mem
           , ldata := N * (smu + ml + 1)
           , cols := fun j => j * (smu + ml + 1) } }

/-- Loop `for (i=0; i<n; i++) g[i] = 0` used by SUNMatrixZero_Band. -/
def setZeroUpTo (n : ℕ) (g : Int → ℚ) : Int → ℚ :=
  (List.range n).foldl (fun g2 (i : ℕ) => upd g2 ((i : Int)) 0) g

/-- SUNMatrixZero_Band (sunmatrix_band.c line 211): guard on the matrix id,
then zero the ldata-long data array.  Returns the C return code together with
the updated matrix. -/
def SUNMatrixZero_Band (A : SUNMatrix) : Int × SUNMatrix :=
  if SUNMatrixGetID A ≠ SUNMatrix_ID.SUNMATRIX_BAND then (1, A)
  else
    (0, { A with content :=
          { A.content with data := setZeroUpTo A.content.ldata.toNat A.content.data } })

/-- Loop `for (i=0; i<n; i++) SM_ELEMENT_B(A,i,i) += ONE` used by
SUNMatrixAddIdentity_Band; the store of iteration i lands at data index
`cols i + (i - i) + s_mu = cols i + s_mu`. -/
def addIdentUpTo (c : SUNMatrixContent_Band) (n : ℕ) (g : Int → ℚ) : Int → ℚ :=
  (List.range n).foldl
    (fun g2 (i : ℕ) => upd g2 (c.cols ((i : Int)) + c.s_mu)
                        (g2 (c.cols ((i : Int)) + c.s_mu) + 1)) g

/-- SUNMatrixAddIdentity_Band (sunmatrix_band.c line 263): guard on the matrix
id, then add ONE to each diagonal element for i = 0..N-1. -/
def SUNMatrixAddIdentity_Band (A : SUNMatrix) : Int × SUNMatrix :=
  if SUNMatrixGetID A ≠ SUNMatrix_ID.SUNMATRIX_BAND then (1, A)
  else
    (0, { A with content :=
          { A.content with data := addIdentUpTo A.content A.content.N.toNat A.content.data } })

/-- Length check of one vector argument in SMCompatible2_Band: the vector must
be SERIAL, OPENMP or PTHREADS (each reading its own length field, all modelled
by `length`), any other implementation is incompatible. -/
def nvLenOK (v : NVector) (n : Int) : Bool :=
  match v.id with
  | N_Vector_ID.SUNDIALS_NVEC_SERIAL => v.length = n
  | N_Vector_ID.SUNDIALS_NVEC_OPENMP => v.length = n
  | N_Vector_ID.SUNDIALS_NVEC_PTHREADS => v.length = n
  | N_Vector_ID.SUNDIALS_NVEC_PARALLEL => false

/-- SMCompatible2_Band (sunmatrix_band.c line 356): A must be a band matrix,
x must have length SM_COLUMNS_B(A), y must have length SM_ROWS_B(A), and both
vectors must be of a supported implementation. -/
def SMCompatible2_Band (A : SUNMatrix) (x y : NVector) : Bool :=
  if SUNMatrixGetID A ≠ SUNMatrix_ID.SUNMATRIX_BAND then false
  else if ¬ nvLenOK x A.content.N then false
  else if ¬ nvLenOK y A.content.M then false
  else true

/-- Inner loop of SUNMatrixMatvec_Band for one column j:
`for (i=is; i<=ie; i++) yd[i] += col_j[i-j]*xd[j]`, with `cnt` iterations
starting at `is` and `contrib i = col_j[i-j]*xd[j]`. -/
def addColUpTo (g : Int → ℚ) (is : Int) (cnt : ℕ) (contrib : Int → ℚ) : Int → ℚ :=
  (List.range cnt).foldl
    (fun g2 (k : ℕ) => upd g2 (is + (k : Int)) (g2 (is + (k : Int)) + contrib (is + (k : Int)))) g

/-- Outer loop of SUNMatrixMatvec_Band over columns j = 0..n-1
(sunmatrix_band.c lines 315-321): for each column the contribution
`col_j[i-j]*xd[j]` with `col_j = cols[j]+s_mu` is accumulated into yd over
rows i from SUNMAX(0, j-mu) to SUNMIN(M-1, j+ml). -/
def matvecCols (c : SUNMatrixContent_Band) (xd : Int → ℚ) (n : ℕ) (g : Int → ℚ) : Int → ℚ :=
  (List.range n).foldl
    (fun g2 (jn : ℕ) =>
      addColUpTo g2 (max 0 ((jn : Int) - c.mu))
        ((min (c.M - 1) ((jn : Int) + c.ml) - max 0 ((jn : Int) - c.mu) + 1).toNat
        )
        (fun i => c.data (c.cols ((jn : Int)) + (i - (jn : Int)) + c.s_mu) * xd ((jn : Int))))
    g

/-- SUNMatrixMatvec_Band (sunmatrix_band.c line 297): if the compatibility
check fails, return 1 with y untouched; otherwise zero yd over the M rows and
accumulate every column's band contribution, returning 0.  (The NULL data
pointer check at line 309 cannot fire in the model: a supported vector's data
array is its `data` field.) -/
def SUNMatrixMatvec_Band (A : SUNMatrix) (x y : NVector) : Int × NVector :=
  if ¬ SMCompatible2_Band A x y then (1, y)
  else
    (0, { y with data :=
          (matvecCols A.content x.data A.content.N.toNat
            (setZeroUpTo A.content.M.toNat y.data)) })

/- ================================================================
   CVODES basic constants, from src/cvodes/include/cvodes.h
   lines 1098-1102.
   ================================================================ -/

def ADAMS_Q_MAX : ℕ := 12

def BDF_Q_MAX : ℕ := 5

def Q_MAX : ℕ := ADAMS_Q_MAX

def L_MAX : ℕ := Q_MAX + 1

def NUM_TESTS : ℕ := 5

/-- Declared size of the Nordsieck history array: `N_Vector cv_zn[L_MAX]`
(cvodes.h line 1164), so the struct holds exactly L_MAX column vectors,
indexed 0 .. L_MAX - 1. -/
def cv_zn_size : ℕ := L_MAX

/-- Component-wise model of an N-dimensional solution vector of the
integrator core. -/
abbrev Vec : Type := ℕ → ℚ

/-- Tolerance type selector (cvodes.h line 109). -/
inductive CViTol where
| SS
| SV
deriving DecidableEq

/-- The slice of struct CVodeMemRec (cvodes.h line 1112) that the claims
touch.  `cv_znAlloc` is an allocation token identifying the heap block
backing the Nordsieck array: CVodeMalloc mints a fresh token, and an
operation that performs no (re)allocation keeps it. -/
structure CVodeMemRec where
  cv_N : ℕ
  cv_itol : CViTol
  cv_reltol : ℚ
  cv_SabstolS : ℚ
  cv_VabstolS : Vec
  cv_zn : Fin cv_zn_size → Vec
  cv_tn : ℚ
  cv_h : ℚ
  cv_hu : ℚ
  cv_qu : ℕ
  cv_qmax : ℕ
  cv_MallocDone : Bool
  cv_znAlloc : ℕ

/-- Read of `zn[j]`; the C code only indexes the array with j ≤ q < L_MAX, an
out-of-range model read yields the zero vector. -/
def znAt (m : CVodeMemRec) (j : ℕ) : Vec :=
  if h : j < cv_zn_size then m.cv_zn ⟨j, h⟩ else fun _ => 0

/- ================================================================
   Dense output (CVodeGetDky).  The implementation file is not part
   of the given sources (cvodes.h only declares it, lines 779-816),
   so the routine is modelled from the spec.
   ================================================================ -/

/-- Horner recursion over the Nordsieck columns, processing j = qu down to
qu - n: the value for n = 0 is c_qu * zn[qu], and each further step folds in
the next lower column, `c_j * zn[j] + s * (previous)`, with the falling
factorial c_j = j*(j-1)*...*(j-k+1). -/
def dkyHornerGo (m : CVodeMemRec) (s : ℚ) (k : ℕ) : ℕ → Vec
  | 0 => fun i => (Nat.descFactorial m.cv_qu k : ℚ) * znAt m m.cv_qu i
  | n + 1 => fun i =>
      (Nat.descFactorial (m.cv_qu - (n + 1)) k : ℚ) * znAt m (m.cv_qu - (n + 1)) i
        + s * dkyHornerGo m s k n i

/-- Horner evaluation of the k-th derivative over the whole range
j = k .. qu (before the final h^(-k) scaling). -/
def dkyHorner (m : CVodeMemRec) (s : ℚ) (k : ℕ) : Vec :=
  dkyHornerGo m s k (m.cv_qu - k)

/-- Modelled from the spec: CVodeGetDky, whose implementation is not among
the given sources (cvodes.h lines 779-816 only declare it).  Per the spec,
`get_dky(t, k, dky)` computes the k-th derivative by Horner evaluation over
Z, is legal for t in [tn-hu, tn] and k in [0, qu], returns BAD_K when k is
not in 0..qu, and BAD_T when t is not in [tn-hu, tn]; the k checks precede
the t check as in the declared getter-code order.  The derivative is
h^(-k) * sum over j = k..qu of j*(j-1)*...*(j-k+1) * s^(j-k) * zn[j] with
s = (t - tn)/h. -/
def CVodeGetDky (m : CVodeMemRec) (t : ℚ) (k : Int) : Int × Vec :=
  if k < 0 ∨ (m.cv_qu : Int) < k then (BAD_K, fun _ => 0)
  else if ¬ (m.cv_tn - m.cv_hu ≤ t ∧ t ≤ m.cv_tn) then (BAD_T, fun _ => 0)
  else
    (OKAY, fun i => m.cv_h ^ (-k) * dkyHorner m ((t - m.cv_tn) / m.cv_h) k.toNat i)

/- ================================================================
   Error weights.  CVodeMalloc's contract (cvodes.h lines 382-389)
   defines the weight vector and the WRMS norm; the computing code
   is not among the given sources, so both are modelled from the
   spec.
   ================================================================ -/

/-- Modelled from the spec: the error-weight vector defined by (itol,
reltol, abstol) and the current solution y (cvodes.h lines 382-386):
component i is the reciprocal of reltol*|y[i]| + abstol (scalar abstol for
SS, component abstol[i] for SV). -/
def CVEwtSet (m : CVodeMemRec) (ycur : Vec) : Vec :=
  match m.cv_itol with
  | CViTol.SS => fun i => (m.cv_reltol * |ycur i| + m.cv_SabstolS)⁻¹
  | CViTol.SV => fun i => (m.cv_reltol * |ycur i| + m.cv_VabstolS i)⁻¹

/-- Modelled from the spec: the weighted RMS norm
sqrt((1/N) * sum over i of (v[i]*w[i])^2) applied to error-like vectors
(cvodes.h lines 387-389). -/
noncomputable def N_VWrmsNorm (n : ℕ) (v w : Vec) : ℝ :=
  Real.sqrt (((∑ i ∈ Finset.range n, ((v i * w i : ℚ) : ℝ) ^ 2)) / n)

/-- Modelled from the spec: the weight recomputation at the head of every
step attempt (spec 4.5 item 2; the stepping code is not among the given
sources).  The weights are recomputed from (rtol, atol, itol, Z[0]); if any
component is nonpositive the attempt aborts fatally with ILL_INPUT,
otherwise stepping continues with the recomputed weights. -/
def cvStepEwtCheck (m : CVodeMemRec) : Int ⊕ Vec :=
  let w := CVEwtSet m (znAt m 0)
  if (List.range m.cv_N).any (fun i => decide (w i ≤ 0)) then Sum.inl ILL_INPUT
  else Sum.inr w

/- ================================================================
   Reinitialization.  CVodeReInit's implementation is not among the
   given sources (cvodes.h lines 412-454 only declare it), so it is
   modelled from the spec.
   ================================================================ -/

/-- Modelled from the spec: CVodeReInit (declared cvodes.h lines 412-454).
It requires a prior CVodeMalloc, performs no memory allocation (the
Nordsieck array token is retained; the new problem must fit the existing
dimensions), rejects with CVREI_ILL_INPUT any attempt to make the maximum
method order exceed the qmax in effect since the last CVodeMalloc, and on
success installs the new problem data, with Z[0] receiving the new initial
condition. -/
def CVodeReInit (m : CVodeMemRec) (t0 : ℚ) (y0 : Vec) (maxord : ℕ)
    (itol : CViTol) (reltol : ℚ) (sabstol : ℚ) (vabstol : Vec) : Int × CVodeMemRec :=
  if m.cv_MallocDone = false then (CVREI_NO_MALLOC, m)
  else if m.cv_qmax < maxord then (CVREI_ILL_INPUT, m)
  else
    (SUCCESS,
     { m with
       cv_tn := t0
       cv_itol := itol
       cv_reltol := reltol
       cv_SabstolS := sabstol
       cv_VabstolS := vabstol
       cv_qmax := maxord
       cv_qu := 1
       cv_zn := fun j => if j.val = 0 then y0 else m.cv_zn j })

/- ================================================================
   Linear-solver setup contract.  The Newton corrector's lsetup
   retry loop lives in the integrator source, which is not among
   the given files (cvodes.h lines 1505-1551 only document the
   lsetup interface), so the loop is modelled from the spec.
   ================================================================ -/

/-- Modelled from the spec: the driver-side policy around cv_lsetup for one
nonlinear solve (spec 4.7; the stepping code is not among the given
sources).  The oracle gives, for each consecutive invocation, the lsetup
return code and the jcur flag it stored.  A negative return is an
unrecoverable setup failure.  If lsetup reports non-current Jacobian data
(jcur = false) it is invoked once more; per the spec the integrator treats
a second consecutive stale report as a fatal SETUP_FAILURE instead of
looping forever, and the function is structurally terminating. -/
def cvNlsSetupDriver (lsetup : ℕ → Int × Bool) : Int :=
  if (lsetup 0).1 < 0 then SETUP_FAILURE
  else if (lsetup 0).2 then SUCCESS
  else if (lsetup 1).1 < 0 then SETUP_FAILURE
  else if (lsetup 1).2 then SUCCESS
  else SETUP_FAILURE

/- ================================================================
   Concrete instances used to exercise the definitions.
   ================================================================ -/

/-- All-zero heap content. -/
def gZero : Int → ℚ := fun _ => 0

/-- A small concrete integrator state: one equation, scalar tolerances
rtol = atol = 1, zero Nordsieck history, tn = 0 after a successful step of
size hu = 1 at order qu = 0. -/
def memW : CVodeMemRec :=
  { cv_N := 1
  , cv_itol := CViTol.SS
  , cv_reltol := 1
  , cv_SabstolS := 1
  , cv_VabstolS := fun _ => 1
  , cv_zn := fun _ => fun _ => 0
  , cv_tn := 0
  , cv_h := 1
  , cv_hu := 1
  , cv_qu := 0
  , cv_qmax := 5
  , cv_MallocDone := true
  , cv_znAlloc := 7 }

/-- A concrete 1-by-1 band matrix with single entry 2. -/
def Aw1 : SUNMatrix :=
  { id := SUNMatrix_ID.SUNMATRIX_BAND
  , content :=
    { M := 1, N := 1, ldim := 1, mu := 0, ml := 0, s_mu := 0
    , data := fun k => if k = 0 then 2 else 0, ldata := 1, cols := fun j => j * 1 } }

/-- Serial vector of length 1 holding 3. -/
def xw1 : NVector := { id := N_Vector_ID.SUNDIALS_NVEC_SERIAL, length := 1, data := fun _ => 3 }

/-- Serial vector of length 1 holding 5. -/
def yw1 : NVector := { id := N_Vector_ID.SUNDIALS_NVEC_SERIAL, length := 1, data := fun _ => 5 }

/-- The Zero-AddIdentity-Matvec round trip of the band module. -/
def zeroAddIdMatvec (A : SUNMatrix) (x y : NVector) : Int × NVector :=
  SUNMatrixMatvec_Band (SUNMatrixAddIdentity_Band (SUNMatrixZero_Band A).2).2 x y

/-- The band matrix produced by SUNMatrixNew_Band(2, -1, 0, 0): square, with
a negative upper bandwidth that the constructor never validates. -/
def cexA10 : SUNMatrix :=
  { id := SUNMatrix_ID.SUNMATRIX_BAND
  , content :=
    { M := 2, N := 2, ldim := 1, mu := -1, ml := 0, s_mu := 0
    , data := gZero, ldata := 2, cols := fun j => j * 1 } }

/-- Serial vector of length 2 holding all ones. -/
def cexX2 : NVector := { id := N_Vector_ID.SUNDIALS_NVEC_SERIAL, length := 2, data := fun _ => 1 }

/-- Serial vector of length 2 holding all fives. -/
def cexY2 : NVector := { id := N_Vector_ID.SUNDIALS_NVEC_SERIAL, length := 2, data := fun _ => 5 }

/-- The band matrix produced by SUNMatrixNew_Band(3, 1, 1, 1) on zeroed
heap content. -/
def Aw10 : SUNMatrix :=
  { id := SUNMatrix_ID.SUNMATRIX_BAND
  , content :=
    { M := 3, N := 3, ldim := 3, mu := 1, ml := 1, s_mu := 1
    , data := gZero, ldata := 9, cols := fun j => j * 3 } }

/-- Serial vector of length 3 holding 4, 5, 6. -/
def xw3 : NVector :=
  { id := N_Vector_ID.SUNDIALS_NVEC_SERIAL, length := 3
  , data := fun i => if i = 0 then 4 else if i = 1 then 5 else 6 }

/-- Serial vector of length 3 holding all nines. -/
def yw3 : NVector := { id := N_Vector_ID.SUNDIALS_NVEC_SERIAL, length := 3, data := fun _ => 9 }

/- ================================================================
   Loop characterization lemmas.
   ================================================================ -/

theorem upd_apply (f : Int → ℚ) (i : Int) (v : ℚ) (k : Int) :
    upd f i v k = if k = i then v else f k := rfl

theorem setZeroUpTo_apply (n : ℕ) (g : Int → ℚ) (i : Int) :
    setZeroUpTo n g i = if 0 ≤ i ∧ i < (n : Int) then 0 else g i := by
  induction n with
  | zero =>
      simp only [setZeroUpTo, List.range_zero, List.foldl_nil]
      rw [if_neg]
      omega
  | succ n ih =>
      unfold setZeroUpTo at ih ⊢
      rw [List.range_succ, List.foldl_append, List.foldl_cons, List.foldl_nil]
      rw [upd_apply]
      by_cases h : i = (n : Int)
      · rw [if_pos h, if_pos (by omega)]
      · rw [if_neg h, ih]
        by_cases h2 : 0 ≤ i ∧ i < (n : Int)
        · rw [if_pos h2, if_pos (by omega)]
        · rw [if_neg h2, if_neg (by omega)]

theorem addColUpTo_apply (g : Int → ℚ) (is : Int) (cnt : ℕ) (contrib : Int → ℚ) (i : Int) :
    addColUpTo g is cnt contrib i
      = g i + (if is ≤ i ∧ i < is + (cnt : Int) then contrib i else 0) := by
  induction cnt with
  | zero =>
      simp only [addColUpTo, List.range_zero, List.foldl_nil]
      rw [if_neg (by omega), add_zero]
  | succ n ih =>
      unfold addColUpTo at ih ⊢
      rw [List.range_succ, List.foldl_append, List.foldl_cons, List.foldl_nil]
      rw [upd_apply]
      by_cases h : i = is + (n : Int)
      · rw [if_pos h, ← h, ih, if_neg (by omega), add_zero, if_pos (by omega)]
      · rw [if_neg h, ih]
        by_cases h2 : is ≤ i ∧ i < is + (n : Int)
        · rw [if_pos h2, if_pos (by omega)]
        · rw [if_neg h2, if_neg (by omega)]

theorem matvecCols_apply (c : SUNMatrixContent_Band) (xd : Int → ℚ) (n : ℕ)
    (g : Int → ℚ) (i : Int) :
    matvecCols c xd n g i
      = g i + ∑ jn ∈ Finset.range n,
          (if max 0 ((jn : Int) - c.mu) ≤ i ∧ i ≤ min (c.M - 1) ((jn : Int) + c.ml)
           then c.data (c.cols (jn : Int) + (i - (jn : Int)) + c.s_mu) * xd (jn : Int)
           else 0) := by
  induction n with
  | zero =>
      simp [matvecCols]
  | succ n ih =>
      unfold matvecCols at ih ⊢
      rw [List.range_succ, List.foldl_append, List.foldl_cons, List.foldl_nil]
      rw [addColUpTo_apply, ih, Finset.sum_range_succ, add_assoc]
      congr 1
      have hiff :
          (max 0 ((n : Int) - c.mu) ≤ i ∧
             i < max 0 ((n : Int) - c.mu)
               + ((min (c.M - 1) ((n : Int) + c.ml) - max 0 ((n : Int) - c.mu) + 1).toNat : Int))
          ↔ (max 0 ((n : Int) - c.mu) ≤ i ∧ i ≤ min (c.M - 1) ((n : Int) + c.ml)) := by
        omega
      by_cases h : max 0 ((n : Int) - c.mu) ≤ i ∧ i ≤ min (c.M - 1) ((n : Int) + c.ml)
      · rw [if_pos (hiff.mpr h), if_pos h]
      · rw [if_neg (fun hc => h (hiff.mp hc)), if_neg h]

theorem addIdentUpTo_apply (c : SUNMatrixContent_Band) (n : ℕ) (g : Int → ℚ)
    (hld : 1 ≤ c.ldim) (hcols : ∀ j, c.cols j = j * c.ldim) (k : Int) :
    addIdentUpTo c n g k
      = g k + (if k ∈ (Finset.range n).image (fun i : ℕ => (i : Int) * c.ldim + c.s_mu)
               then 1 else 0) := by
  induction n with
  | zero =>
      simp [addIdentUpTo]
  | succ n ih =>
      unfold addIdentUpTo at ih ⊢
      rw [List.range_succ, List.foldl_append, List.foldl_cons, List.foldl_nil]
      rw [upd_apply, hcols]
      by_cases h : k = (n : Int) * c.ldim + c.s_mu
      · rw [if_pos h, ← h, ih]
        have hnot : k ∉ (Finset.range n).image (fun i : ℕ => (i : Int) * c.ldim + c.s_mu) := by
          simp only [Finset.mem_image, Finset.mem_range, not_exists, not_and]
          intro a ha hak
          rw [h] at hak
          have : (a : Int) = (n : Int) := by
            have hne : c.ldim ≠ 0 := by omega
            exact mul_right_cancel₀ hne (by omega)
          omega
        rw [if_neg hnot, add_zero]
        have hin : k ∈ (Finset.range (n + 1)).image (fun i : ℕ => (i : Int) * c.ldim + c.s_mu) := by
          simp only [Finset.mem_image, Finset.mem_range]
          exact ⟨n, by omega, h.symm⟩
        rw [if_pos hin]
      · rw [if_neg h, ih]
        have hiff : k ∈ (Finset.range (n + 1)).image (fun i : ℕ => (i : Int) * c.ldim + c.s_mu)
            ↔ k ∈ (Finset.range n).image (fun i : ℕ => (i : Int) * c.ldim + c.s_mu) := by
          simp only [Finset.mem_image, Finset.mem_range]
          constructor
          · rintro ⟨a, ha, hak⟩
            refine ⟨a, ?_, hak⟩
            rcases Nat.lt_succ_iff_lt_or_eq.mp ha with h1 | h1
            · exact h1
            · exfalso; apply h; rw [← hak, h1]
          · rintro ⟨a, ha, hak⟩
            exact ⟨a, by omega, hak⟩
        by_cases h2 : k ∈ (Finset.range n).image (fun i : ℕ => (i : Int) * c.ldim + c.s_mu)
        · rw [if_pos (hiff.mpr h2), if_pos h2]
        · rw [if_neg (fun hc => h2 (hiff.mp hc)), if_neg h2]

theorem dkyHornerGo_eq (m : CVodeMemRec) (s : ℚ) (k : ℕ) :
    ∀ n : ℕ, n ≤ m.cv_qu → ∀ i : ℕ,
    dkyHornerGo m s k n i
      = ∑ d ∈ Finset.range (n + 1),
          (Nat.descFactorial (m.cv_qu - n + d) k : ℚ) * s ^ d * znAt m (m.cv_qu - n + d) i := by
  intro n
  induction n with
  | zero =>
      intro _ i
      simp [dkyHornerGo]
  | succ n ih =>
      intro hn i
      have hrw : ∀ d ∈ Finset.range (n + 1),
          (Nat.descFactorial (m.cv_qu - (n + 1) + (d + 1)) k : ℚ) * s ^ (d + 1)
              * znAt m (m.cv_qu - (n + 1) + (d + 1)) i
            = s * ((Nat.descFactorial (m.cv_qu - n + d) k : ℚ) * s ^ d
              * znAt m (m.cv_qu - n + d) i) := by
        intro d _
        have hidx : m.cv_qu - (n + 1) + (d + 1) = m.cv_qu - n + d := by omega
        rw [hidx, pow_succ]
        ring
      simp only [dkyHornerGo]
      rw [Finset.sum_range_succ', Finset.sum_congr rfl hrw, ← Finset.mul_sum,
          ← ih (by omega) i]
      simp only [add_zero, pow_zero, mul_one]
      ring

theorem dkyHorner_eq (m : CVodeMemRec) (s : ℚ) (k : ℕ) (hk : k ≤ m.cv_qu) (i : ℕ) :
    dkyHorner m s k i
      = ∑ d ∈ Finset.range (m.cv_qu - k + 1),
          (Nat.descFactorial (k + d) k : ℚ) * s ^ d * znAt m (k + d) i := by
  unfold dkyHorner
  rw [dkyHornerGo_eq m s k (m.cv_qu - k) (by omega) i]
  apply Finset.sum_congr rfl
  intro d _
  have hidx : m.cv_qu - (m.cv_qu - k) + d = k + d := by omega
  rw [hidx]

/- ================================================================
   Claim theorems.
   ================================================================ -/

/-- Claim C1: the shared CVode return-code enumeration assigns SUCCESS = 0
and TSTOP_RETURN = 1, the nine failure codes are pairwise-distinct negative
values, and the getter codes OKAY, BAD_K, BAD_T, BAD_DKY are pairwise
distinct with OKAY = 0. -/
theorem cvode_return_codes_enum :
    SUCCESS = 0 ∧ TSTOP_RETURN = 1 ∧
    (∀ c ∈ [CVODE_NO_MEM, CVODE_NO_MALLOC, ILL_INPUT, TOO_MUCH_WORK, TOO_MUCH_ACC,
            ERR_FAILURE, CONV_FAILURE, SETUP_FAILURE, SOLVE_FAILURE], c < 0) ∧
    List.Pairwise (fun a b => a ≠ b)
      [CVODE_NO_MEM, CVODE_NO_MALLOC, ILL_INPUT, TOO_MUCH_WORK, TOO_MUCH_ACC,
       ERR_FAILURE, CONV_FAILURE, SETUP_FAILURE, SOLVE_FAILURE] ∧
    OKAY = 0 ∧
    List.Pairwise (fun a b => a ≠ b) [OKAY, BAD_K, BAD_T, BAD_DKY] := by
  decide

/-- Claim C1 witness: the bounded quantifier of the theorem instantiated at
a concrete failure code. -/
theorem cvode_return_codes_enum_witness : ILL_INPUT < 0 :=
  cvode_return_codes_enum.2.2.1 ILL_INPUT (by simp)

/-- Claim C5: if lsetup is invoked after having reported non-current
Jacobian data and on the second consecutive invocation again reports
jcur = false (both calls otherwise succeeding), the modelled driver loop
does not iterate further: it returns SETUP_FAILURE. -/
theorem lsetup_second_stale_fatal (lsetup : ℕ → Int × Bool)
    (h0r : 0 ≤ (lsetup 0).1) (h0j : (lsetup 0).2 = false)
    (h1r : 0 ≤ (lsetup 1).1) (h1j : (lsetup 1).2 = false) :
    cvNlsSetupDriver lsetup = SETUP_FAILURE := by
  unfold cvNlsSetupDriver
  rw [if_neg (by omega), h0j, if_neg (by simp), if_neg (by omega), h1j,
      if_neg (by simp)]

/-- Claim C5 witness: a setup oracle that always succeeds but never reports
current Jacobian data makes the driver return SETUP_FAILURE. -/
theorem lsetup_second_stale_fatal_witness :
    cvNlsSetupDriver (fun _ => (0, false)) = SETUP_FAILURE :=
  lsetup_second_stale_fatal (fun _ => (0, false)) (by norm_num) rfl (by norm_num) rfl

/-- Claim C6: on an initialized handle, CVodeReInit rejects any attempt to
raise the maximum method order beyond the qmax in effect since the last
CVodeMalloc, returning CVREI_ILL_INPUT = ILL_INPUT = -3 with the state
untouched; otherwise it succeeds, installs the (not larger) new qmax, and
keeps the existing Nordsieck allocation. -/
theorem reinit_no_widen_no_alloc_spec (m : CVodeMemRec) (t0 : ℚ) (y0 : Vec)
    (maxord : ℕ) (itol : CViTol) (reltol sabstol : ℚ) (vabstol : Vec)
    (hmal : m.cv_MallocDone = true) :
    (m.cv_qmax < maxord →
       CVodeReInit m t0 y0 maxord itol reltol sabstol vabstol = (CVREI_ILL_INPUT, m)
         ∧ CVREI_ILL_INPUT = ILL_INPUT) ∧
    (maxord ≤ m.cv_qmax →
       (CVodeReInit m t0 y0 maxord itol reltol sabstol vabstol).1 = SUCCESS ∧
       (CVodeReInit m t0 y0 maxord itol reltol sabstol vabstol).2.cv_znAlloc = m.cv_znAlloc ∧
       (CVodeReInit m t0 y0 maxord itol reltol sabstol vabstol).2.cv_qmax = maxord) := by
  unfold CVodeReInit
  rw [hmal]
  constructor
  · intro hlt
    rw [if_neg (by simp), if_pos hlt]
    exact ⟨rfl, rfl⟩
  · intro hle
    rw [if_neg (by simp), if_neg (by omega)]
    exact ⟨rfl, rfl, rfl⟩

/-- Claim C6 witness: on the concrete initialized state with qmax = 5, a
reinitialization requesting maxord = 6 fails with CVREI_ILL_INPUT and
leaves the state unchanged. -/
theorem reinit_no_widen_no_alloc_spec_witness :
    CVodeReInit memW 0 (fun _ => 0) 6 CViTol.SS 1 1 (fun _ => 1) = (CVREI_ILL_INPUT, memW)
      ∧ CVREI_ILL_INPUT = ILL_INPUT :=
  (reinit_no_widen_no_alloc_spec memW 0 (fun _ => 0) 6 CViTol.SS 1 1 (fun _ => 1) rfl).1
    (by norm_num [memW])

/-- Claim C3: at step entry the weights are recomputed from (rtol, atol,
itol, Z[0]); the attempt aborts with ILL_INPUT exactly when some component
of the recomputed weight vector is nonpositive, and whenever stepping
continues the continued-with weights are the recomputed ones and every
component is positive. -/
theorem ewt_positivity_check_spec (m : CVodeMemRec) :
    (cvStepEwtCheck m = Sum.inl ILL_INPUT
       ↔ ∃ i, i < m.cv_N ∧ CVEwtSet m (znAt m 0) i ≤ 0) ∧
    (∀ w, cvStepEwtCheck m = Sum.inr w →
       w = CVEwtSet m (znAt m 0) ∧ ∀ i, i < m.cv_N → 0 < w i) := by
  unfold cvStepEwtCheck
  by_cases h : (List.range m.cv_N).any (fun i => decide (CVEwtSet m (znAt m 0) i ≤ 0)) = true
  · rw [if_pos h]
    constructor
    · simp only [true_iff]
      simp only [List.any_eq_true, List.mem_range, decide_eq_true_eq] at h
      obtain ⟨i, hi, hle⟩ := h
      exact ⟨i, hi, hle⟩
    · intro w hw
      exact absurd hw (by simp)
  · rw [if_neg h]
    simp only [List.any_eq_true, List.mem_range, decide_eq_true_eq, not_exists, not_and,
      not_le] at h
    constructor
    · constructor
      · intro hc
        exact absurd hc (by simp)
      · rintro ⟨i, hi, hle⟩
        exact absurd hle (not_le.mpr (h i hi))
    · intro w hw
      have hw2 : CVEwtSet m (znAt m 0) = w := by
        simpa using hw
      subst hw2
      exact ⟨rfl, h⟩

/-- Claim C3 witness: on the concrete state the check passes and the single
weight component is positive. -/
theorem ewt_positivity_check_spec_witness :
    0 < CVEwtSet memW (znAt memW 0) 0 := by
  have h : cvStepEwtCheck memW = Sum.inr (CVEwtSet memW (znAt memW 0)) := by
    unfold cvStepEwtCheck
    norm_num [memW, CVEwtSet, znAt, cv_zn_size, L_MAX, Q_MAX, ADAMS_Q_MAX]
  exact ((ewt_positivity_check_spec memW).2 (CVEwtSet memW (znAt memW 0)) h).2 0
    (by norm_num [memW])

/-- Claim C4: the weight vector is componentwise the reciprocal
1/(rtol*|y[i]| + atol) for scalar tolerances and 1/(rtol*|y[i]| + atol[i])
for vector tolerances, and the norm applied to error-like vectors is the
weighted RMS norm sqrt((1/N) * sum of (v[i]*w[i])^2). -/
theorem ewt_formula_wrms_spec :
    (∀ (m : CVodeMemRec) (y : Vec) (i : ℕ), m.cv_itol = CViTol.SS →
       CVEwtSet m y i = 1 / (m.cv_reltol * |y i| + m.cv_SabstolS)) ∧
    (∀ (m : CVodeMemRec) (y : Vec) (i : ℕ), m.cv_itol = CViTol.SV →
       CVEwtSet m y i = 1 / (m.cv_reltol * |y i| + m.cv_VabstolS i)) ∧
    (∀ (n : ℕ) (v w : Vec),
       N_VWrmsNorm n v w
         = Real.sqrt ((1 / (n : ℝ)) * ∑ i ∈ Finset.range n, ((v i * w i : ℚ) : ℝ) ^ 2)) := by
  refine ⟨?_, ?_, ?_⟩
  · intro m y i h
    unfold CVEwtSet
    rw [h, one_div]
  · intro m y i h
    unfold CVEwtSet
    rw [h, one_div]
  · intro n v w
    unfold N_VWrmsNorm
    rw [div_eq_mul_inv, mul_comm, one_div]

/-- Claim C4 witness: the scalar-tolerance formula instantiated on the
concrete state at component 0 of the zero vector. -/
theorem ewt_formula_wrms_spec_witness :
    CVEwtSet memW (fun _ => 0) 0 = 1 / (memW.cv_reltol * |(0 : ℚ)| + memW.cv_SabstolS) :=
  ewt_formula_wrms_spec.1 memW (fun _ => 0) 0 rfl

/-- Claim C2 counterexample: with qu = 0, tn = 0, hu = 1, the call
get_dky(t = 5, k = 1) has t outside [tn - hu, tn], yet the result is BAD_K,
not BAD_T — the k test precedes the t test, so "BAD_T exactly when t is
outside the interval" fails when both arguments are illegal. -/
theorem getdky_bad_t_precedence_cex :
    (CVodeGetDky memW 5 1).1 = BAD_K ∧
    ¬(memW.cv_tn - memW.cv_hu ≤ (5 : ℚ) ∧ (5 : ℚ) ≤ memW.cv_tn) ∧
    BAD_K ≠ BAD_T := by
  refine ⟨?_, ?_, by decide⟩
  · unfold CVodeGetDky
    rw [if_pos (Or.inr (by norm_num [memW]))]
  · norm_num [memW]

/-- Claim C2 (amended): get_dky returns BAD_K exactly when k is outside
[0, qu]; it returns BAD_T exactly when k is in range and t is outside
[tn - hu, tn] (an out-of-range k wins over an out-of-range t); and for k in
range and t in range it returns OKAY with the k-th derivative: h^(-k) times
the sum over j = k..qu of j*(j-1)*...*(j-k+1) * s^(j-k) * zn[j] at
s = (t - tn)/h, which the implementation produces by Horner evaluation
over Z. -/
theorem CVodeGetDky_spec (m : CVodeMemRec) (t : ℚ) (k : Int) :
    ((CVodeGetDky m t k).1 = BAD_K ↔ (k < 0 ∨ (m.cv_qu : Int) < k)) ∧
    ((CVodeGetDky m t k).1 = BAD_T ↔
       (0 ≤ k ∧ k ≤ (m.cv_qu : Int)) ∧ ¬(m.cv_tn - m.cv_hu ≤ t ∧ t ≤ m.cv_tn)) ∧
    ((0 ≤ k ∧ k ≤ (m.cv_qu : Int) ∧ m.cv_tn - m.cv_hu ≤ t ∧ t ≤ m.cv_tn) →
       (CVodeGetDky m t k).1 = OKAY ∧
       ∀ i, (CVodeGetDky m t k).2 i
         = m.cv_h ^ (-k) * ∑ d ∈ Finset.range (m.cv_qu - k.toNat + 1),
             (Nat.descFactorial (k.toNat + d) k.toNat : ℚ)
               * ((t - m.cv_tn) / m.cv_h) ^ d * znAt m (k.toNat + d) i) := by
  unfold CVodeGetDky
  by_cases h1 : k < 0 ∨ (m.cv_qu : Int) < k
  · rw [if_pos h1]
    refine ⟨iff_of_true rfl h1, ?_, ?_⟩
    · refine iff_of_false (by decide) ?_
      rintro ⟨⟨hk0, hkq⟩, _⟩
      omega
    · rintro ⟨hk0, hkq, _, _⟩
      exact absurd h1 (by omega)
  · rw [if_neg h1]
    push_neg at h1
    by_cases h2 : m.cv_tn - m.cv_hu ≤ t ∧ t ≤ m.cv_tn
    · rw [if_neg (not_not_intro h2)]
      refine ⟨iff_of_false (show ¬OKAY = BAD_K by decide) (by omega), ?_, ?_⟩
      · exact iff_of_false (show ¬OKAY = BAD_T by decide) (fun hc => hc.2 h2)
      · intro _
        refine ⟨rfl, fun i => ?_⟩
        show m.cv_h ^ (-k) * dkyHorner m ((t - m.cv_tn) / m.cv_h) k.toNat i = _
        rw [dkyHorner_eq m _ k.toNat (by omega) i]
    · rw [if_pos h2]
      refine ⟨iff_of_false (by decide) (by omega), iff_of_true rfl ⟨h1, h2⟩, ?_⟩
      rintro ⟨_, _, ht1, ht2⟩
      exact absurd ⟨ht1, ht2⟩ h2

/-- Claim C2 witness: on the concrete state, get_dky(t = 0, k = 0) with both
arguments in their legal ranges succeeds. -/
theorem CVodeGetDky_spec_witness : (CVodeGetDky memW 0 0).1 = OKAY :=
  ((CVodeGetDky_spec memW 0 0).2.2
    ⟨le_refl 0, by norm_num [memW], by norm_num [memW], by norm_num [memW]⟩).1

/-- Claim C7 counterexample: L_MAX + 1 is 14, not 13, and the Nordsieck
array declared as cv_zn[L_MAX] does not hold L_MAX + 1 vectors. -/
theorem zn_size_not_lmax_plus_one_cex : L_MAX + 1 ≠ 13 ∧ cv_zn_size ≠ L_MAX + 1 := by
  decide

/-- Claim C7 (amended): the compile-time limits are ADAMS_Q_MAX = 12,
BDF_Q_MAX = 5, Q_MAX = ADAMS_Q_MAX, L_MAX = Q_MAX + 1 = 13, NUM_TESTS = 5,
and the Nordsieck history is a fixed-size array of exactly L_MAX = 13
vectors zn[0 .. L_MAX-1]; each column zn[j] holds (h^j / j!) times the j-th
derivative of the interpolating polynomial at tn, the derivative being what
dense output evaluates at t = tn. -/
theorem constants_and_nordsieck_spec :
    ADAMS_Q_MAX = 12 ∧ BDF_Q_MAX = 5 ∧ Q_MAX = ADAMS_Q_MAX ∧ L_MAX = Q_MAX + 1 ∧
    NUM_TESTS = 5 ∧ cv_zn_size = L_MAX ∧ cv_zn_size = 13 ∧
    (∀ (m : CVodeMemRec) (j : ℕ), j ≤ m.cv_qu → m.cv_qu < cv_zn_size →
       m.cv_h ≠ 0 → 0 ≤ m.cv_hu → ∀ i : ℕ,
       znAt m j i = m.cv_h ^ (j : Int) / (Nat.factorial j : ℚ)
         * (CVodeGetDky m m.cv_tn (j : Int)).2 i) := by
  refine ⟨rfl, rfl, rfl, rfl, rfl, rfl, by decide, ?_⟩
  intro m j hj hq hh hhu i
  have hval : (CVodeGetDky m m.cv_tn (j : Int)).2 i
      = m.cv_h ^ (-(j : Int)) * ((Nat.factorial j : ℚ) * znAt m j i) := by
    unfold CVodeGetDky
    rw [if_neg (by omega), if_neg (not_not_intro ⟨by linarith, le_refl m.cv_tn⟩)]
    show m.cv_h ^ (-(j : Int))
        * dkyHorner m ((m.cv_tn - m.cv_tn) / m.cv_h) (j : Int).toNat i = _
    rw [sub_self, zero_div, Int.toNat_natCast, dkyHorner_eq m 0 j hj i]
    congr 1
    rw [Finset.sum_eq_single 0]
    · simp [Nat.descFactorial_self]
    · intro b _ hb
      simp [zero_pow hb]
    · intro habs
      exact absurd (Finset.mem_range.mpr (by omega)) habs
  rw [hval]
  have hfac : (Nat.factorial j : ℚ) ≠ 0 := Nat.cast_ne_zero.mpr (Nat.factorial_ne_zero j)
  have hzp : m.cv_h ^ (j : Int) * m.cv_h ^ (-(j : Int)) = 1 := by
    rw [← zpow_add₀ hh]
    simp
  have hre : m.cv_h ^ (j : Int) / (Nat.factorial j : ℚ)
      * (m.cv_h ^ (-(j : Int)) * ((Nat.factorial j : ℚ) * znAt m j i))
      = (m.cv_h ^ (j : Int) * m.cv_h ^ (-(j : Int)))
        * (((Nat.factorial j : ℚ))⁻¹ * (Nat.factorial j : ℚ)) * znAt m j i := by
    ring
  rw [hre, hzp, inv_mul_cancel₀ hfac, one_mul, one_mul]

/-- Claim C7 witness: the scaled-derivative reading of column 0 on the
concrete state. -/
theorem constants_and_nordsieck_spec_witness :
    znAt memW 0 0 = memW.cv_h ^ ((0 : ℕ) : Int) / (Nat.factorial 0 : ℚ)
      * (CVodeGetDky memW memW.cv_tn ((0 : ℕ) : Int)).2 0 :=
  constants_and_nordsieck_spec.2.2.2.2.2.2.2 memW 0 le_rfl
    (by norm_num [memW, cv_zn_size, L_MAX, Q_MAX, ADAMS_Q_MAX])
    (by norm_num [memW]) (by norm_num [memW]) 0

/-- Claim C8: the band constructor returns NULL exactly on the guard
N <= 0, smu < 0 or ml < 0 (so before any allocation), the upper bandwidth mu
is never validated, and in particular a negative-mu call with otherwise
legal arguments yields a matrix whose column pointers satisfy
cols[j] = data + j*(smu + ml + 1). -/
theorem newband_guard_spec :
    (∀ (N mu ml smu : Int) (mem : Int → ℚ),
       SUNMatrixNew_Band N mu ml smu mem = none ↔ (N ≤ 0 ∨ smu < 0 ∨ ml < 0)) ∧
    (∃ A : SUNMatrix, SUNMatrixNew_Band 2 (-1) 0 0 gZero = some A ∧
       A.content.mu = -1 ∧
       ∀ j : Int, A.content.cols j = j * (A.content.s_mu + A.content.ml + 1)) := by
  constructor
  · intro N mu ml smu mem
    unfold SUNMatrixNew_Band
    by_cases h : N ≤ 0 ∨ smu < 0 ∨ ml < 0
    · rw [if_pos h]
      exact iff_of_true rfl h
    · rw [if_neg h]
      exact iff_of_false (by simp) h
  · exact ⟨cexA10, rfl, rfl, fun j => rfl⟩

/-- Claim C8 witness: the guard equivalence instantiated at a concrete
illegal dimension. -/
theorem newband_guard_spec_witness : SUNMatrixNew_Band 0 5 3 2 gZero = none :=
  (newband_guard_spec.1 0 5 3 2 gZero).mpr (Or.inl (by norm_num))

/-- Claim C9: when the compatibility check passes, the band matvec returns 0
and overwrites y with y[i] = sum over columns j with j - mu <= i <= j + ml
of A(i,j) * x[j] (entries outside the band contributing nothing); when the
check fails it returns 1 with y unchanged. -/
theorem matvec_band_spec (A : SUNMatrix) (x y : NVector) :
    (SMCompatible2_Band A x y = true →
       (SUNMatrixMatvec_Band A x y).1 = 0 ∧
       ∀ i : Int, 0 ≤ i → i < A.content.M →
         (SUNMatrixMatvec_Band A x y).2.data i
           = ∑ jn ∈ Finset.range A.content.N.toNat,
               (if (jn : Int) - A.content.mu ≤ i ∧ i ≤ (jn : Int) + A.content.ml
                then SM_ELEMENT_B A i (jn : Int) * x.data (jn : Int) else 0)) ∧
    (SMCompatible2_Band A x y = false → SUNMatrixMatvec_Band A x y = (1, y)) := by
  constructor
  · intro hc
    unfold SUNMatrixMatvec_Band
    rw [if_neg (by simp [hc])]
    refine ⟨rfl, ?_⟩
    intro i hi0 hiM
    show matvecCols A.content x.data A.content.N.toNat
        (setZeroUpTo A.content.M.toNat y.data) i = _
    rw [matvecCols_apply, setZeroUpTo_apply, if_pos ⟨hi0, by omega⟩, zero_add]
    apply Finset.sum_congr rfl
    intro jn _
    have hiff : (max 0 ((jn : Int) - A.content.mu) ≤ i ∧
          i ≤ min (A.content.M - 1) ((jn : Int) + A.content.ml))
        ↔ ((jn : Int) - A.content.mu ≤ i ∧ i ≤ (jn : Int) + A.content.ml) := by
      omega
    by_cases h : ((jn : Int) - A.content.mu ≤ i ∧ i ≤ (jn : Int) + A.content.ml)
    · rw [if_pos (hiff.mpr h), if_pos h]
      rfl
    · rw [if_neg (fun hx2 => h (hiff.mp hx2)), if_neg h]
  · intro hc
    unfold SUNMatrixMatvec_Band
    rw [if_pos (by simp [hc])]

/-- Claim C9 witness: the product formula instantiated on the concrete
1-by-1 matrix and vectors. -/
theorem matvec_band_spec_witness :
    (SUNMatrixMatvec_Band Aw1 xw1 yw1).2.data 0
      = ∑ jn ∈ Finset.range Aw1.content.N.toNat,
          (if (jn : Int) - Aw1.content.mu ≤ 0 ∧ (0 : Int) ≤ (jn : Int) + Aw1.content.ml
           then SM_ELEMENT_B Aw1 0 (jn : Int) * xw1.data (jn : Int) else 0) :=
  ((matvec_band_spec Aw1 xw1 yw1).1 (by decide)).2 0 le_rfl (by norm_num [Aw1])

theorem bandRoundTrip_aux (A : SUNMatrix) (x y : NVector)
    (hid : A.id = SUNMatrix_ID.SUNMATRIX_BAND)
    (hMN : A.content.M = A.content.N)
    (hldim : A.content.ldim = A.content.s_mu + A.content.ml + 1)
    (hldata : A.content.ldata = A.content.N * A.content.ldim)
    (hcols : ∀ j, A.content.cols j = j * A.content.ldim)
    (hN : 0 < A.content.N) (hmu0 : 0 ≤ A.content.mu)
    (hms : A.content.mu ≤ A.content.s_mu) (hml : 0 ≤ A.content.ml)
    (hx : nvLenOK x A.content.N = true) (hy : nvLenOK y A.content.N = true) :
    (SUNMatrixZero_Band A).1 = 0 ∧
    (SUNMatrixAddIdentity_Band (SUNMatrixZero_Band A).2).1 = 0 ∧
    (zeroAddIdMatvec A x y).1 = 0 ∧
    ∀ i : Int, 0 ≤ i → i < A.content.N →
      (zeroAddIdMatvec A x y).2.data i = x.data i := by
  have hsmu : 0 ≤ A.content.s_mu := le_trans hmu0 hms
  have hld1 : 1 ≤ A.content.ldim := by omega
  have hidn : ¬ (SUNMatrixGetID A ≠ SUNMatrix_ID.SUNMATRIX_BAND) := by
    simp [SUNMatrixGetID, hid]
  have hz1 : (SUNMatrixZero_Band A).1 = 0 := by
    unfold SUNMatrixZero_Band
    rw [if_neg hidn]
  have hzsnd : (SUNMatrixZero_Band A).2
      = { A with content :=
            { A.content with
              data := setZeroUpTo A.content.ldata.toNat A.content.data } } := by
    unfold SUNMatrixZero_Band
    rw [if_neg hidn]
  have hz2fst : (SUNMatrixAddIdentity_Band (SUNMatrixZero_Band A).2).1 = 0 := by
    rw [hzsnd]
    unfold SUNMatrixAddIdentity_Band
    rw [if_neg (show ¬ (SUNMatrixGetID
        { A with content :=
            { A.content with
              data := setZeroUpTo A.content.ldata.toNat A.content.data } }
        ≠ SUNMatrix_ID.SUNMATRIX_BAND) from by simp [SUNMatrixGetID, hid])]
  have hz2snd : (SUNMatrixAddIdentity_Band (SUNMatrixZero_Band A).2).2
      = { A with content :=
            { A.content with
              data := addIdentUpTo
                { A.content with
                  data := setZeroUpTo A.content.ldata.toNat A.content.data }
                A.content.N.toNat
                (setZeroUpTo A.content.ldata.toNat A.content.data) } } := by
    rw [hzsnd]
    unfold SUNMatrixAddIdentity_Band
    rw [if_neg (show ¬ (SUNMatrixGetID
        { A with content :=
            { A.content with
              data := setZeroUpTo A.content.ldata.toNat A.content.data } }
        ≠ SUNMatrix_ID.SUNMATRIX_BAND) from by simp [SUNMatrixGetID, hid])]
  have hcompat : SMCompatible2_Band (SUNMatrixAddIdentity_Band (SUNMatrixZero_Band A).2).2 x y
      = true := by
    rw [hz2snd]
    simp [SMCompatible2_Band, SUNMatrixGetID, hid, hx, hMN, hy]
  refine ⟨hz1, hz2fst, ?_, ?_⟩
  · unfold zeroAddIdMatvec SUNMatrixMatvec_Band
    rw [if_neg (by simp [hcompat])]
  · intro i hi0 hiN
    unfold zeroAddIdMatvec SUNMatrixMatvec_Band
    rw [if_neg (by simp [hcompat])]
    rw [hz2snd]
    dsimp only
    show matvecCols
        { A.content with
          data := addIdentUpTo
            { A.content with
              data := setZeroUpTo A.content.ldata.toNat A.content.data }
            A.content.N.toNat
            (setZeroUpTo A.content.ldata.toNat A.content.data) }
        x.data A.content.N.toNat (setZeroUpTo A.content.M.toNat y.data) i = x.data i
    rw [matvecCols_apply]
    dsimp only
    rw [setZeroUpTo_apply, if_pos ⟨hi0, by omega⟩, zero_add]
    have hterm : ∀ jn ∈ Finset.range A.content.N.toNat,
        (if max 0 ((jn : Int) - A.content.mu) ≤ i ∧
              i ≤ min (A.content.M - 1) ((jn : Int) + A.content.ml)
         then addIdentUpTo
                { A.content with
                  data := setZeroUpTo A.content.ldata.toNat A.content.data }
                A.content.N.toNat
                (setZeroUpTo A.content.ldata.toNat A.content.data)
                (A.content.cols (jn : Int) + (i - (jn : Int)) + A.content.s_mu)
              * x.data (jn : Int)
         else 0)
        = (if jn = i.toNat then x.data i else 0) := by
      intro jn hjn
      rw [Finset.mem_range] at hjn
      have hjnN : (jn : Int) < A.content.N := by omega
      by_cases hcond : max 0 ((jn : Int) - A.content.mu) ≤ i ∧
          i ≤ min (A.content.M - 1) ((jn : Int) + A.content.ml)
      · rw [if_pos hcond]
        obtain ⟨hc1, hc2⟩ := hcond
        have hlo : (jn : Int) - A.content.mu ≤ i := by omega
        have hhi : i ≤ (jn : Int) + A.content.ml := by omega
        have hprod0 : 0 ≤ (jn : Int) * A.content.ldim :=
          mul_nonneg (by positivity) (by omega)
        have hexp : ((jn : Int) + 1) * A.content.ldim
            = (jn : Int) * A.content.ldim + A.content.ldim := by ring
        have hprod1 : (jn : Int) * A.content.ldim + A.content.ldim
            ≤ A.content.N * A.content.ldim := by
          rw [← hexp]
          exact mul_le_mul_of_nonneg_right (by omega) (by omega)
        rw [addIdentUpTo_apply _ _ _ (by dsimp only; omega)
              (fun j => by dsimp only; exact hcols j)]
        dsimp only
        rw [hcols]
        have hoff0 : 0 ≤ (jn : Int) * A.content.ldim + (i - (jn : Int)) + A.content.s_mu := by
          linarith
        have hoffu : (jn : Int) * A.content.ldim + (i - (jn : Int)) + A.content.s_mu
            < A.content.N * A.content.ldim := by
          linarith
        rw [setZeroUpTo_apply, if_pos ⟨hoff0, by omega⟩, zero_add]
        have hmem : ((jn : Int) * A.content.ldim + (i - (jn : Int)) + A.content.s_mu
              ∈ (Finset.range A.content.N.toNat).image
                  (fun a : ℕ => (a : Int) * A.content.ldim + A.content.s_mu))
            ↔ i = (jn : Int) := by
          constructor
          · rintro hm
            rw [Finset.mem_image] at hm
            obtain ⟨a, _, ha⟩ := hm
            have hd : ((a : Int) - (jn : Int)) * A.content.ldim = i - (jn : Int) := by
              have hexpand : ((a : Int) - (jn : Int)) * A.content.ldim
                  = (a : Int) * A.content.ldim - (jn : Int) * A.content.ldim := by ring
              rw [hexpand]
              omega
            rcases lt_trichotomy ((a : Int)) ((jn : Int)) with hlt | heq | hgt
            · exfalso
              have hneg : ((a : Int) - (jn : Int)) * A.content.ldim
                  ≤ (-1) * A.content.ldim :=
                mul_le_mul_of_nonneg_right (by omega) (by omega)
              rw [hd] at hneg
              omega
            · rw [heq, sub_self, zero_mul] at hd
              omega
            · exfalso
              have hpos : (1 : Int) * A.content.ldim
                  ≤ ((a : Int) - (jn : Int)) * A.content.ldim :=
                mul_le_mul_of_nonneg_right (by omega) (by omega)
              rw [hd] at hpos
              omega
          · intro he
            rw [Finset.mem_image]
            exact ⟨jn, Finset.mem_range.mpr hjn, by rw [he]; ring⟩
        by_cases hij : i = (jn : Int)
        · rw [if_pos (hmem.mpr hij), if_pos (by omega), ← hij]
          ring
        · rw [if_neg (fun hm => hij (hmem.mp hm)), if_neg (by omega)]
          ring
      · rw [if_neg hcond, if_neg (show ¬ (jn = i.toNat) from by
          intro he
          exact hcond ⟨by omega, by omega⟩)]
    rw [Finset.sum_congr rfl hterm,
        Finset.sum_ite_eq' (Finset.range A.content.N.toNat) i.toNat (fun _ => x.data i),
        if_pos (Finset.mem_range.mpr (by omega))]

/-- Claim C10 counterexample: the constructor yields the square band matrix
cexA10 with mu = -1 (legal per the unvalidated-mu guard), cexX2 passes the
compatibility check, Zero and AddIdentity succeed, yet the subsequent
product leaves y[0] = 0 while x[0] = 1: with a negative upper bandwidth the
matvec loop skips the diagonal, so the round trip does not return the
input. -/
theorem zero_addid_matvec_cex :
    SUNMatrixNew_Band 2 (-1) 0 0 gZero = some cexA10 ∧
    SMCompatible2_Band cexA10 cexX2 cexY2 = true ∧
    (zeroAddIdMatvec cexA10 cexX2 cexY2).1 = 0 ∧
    (zeroAddIdMatvec cexA10 cexX2 cexY2).2.data 0 = 0 ∧
    cexX2.data 0 = 1 := by
  refine ⟨rfl, by decide, by decide, by decide, by decide⟩

/-- Claim C10 (amended): for every matrix produced by SUNMatrixNew_Band
whose bandwidths satisfy the band-content invariant 0 <= mu <= s_mu
documented in sunmatrix_band.h (ml >= 0 being enforced by the constructor),
and every pair of compatible vectors, Zero followed by AddIdentity makes
the matrix act as the identity under the band matvec: the product stores
exactly x in y. -/
theorem zero_addid_matvec_identity (N mu ml smu : Int) (mem0 : Int → ℚ)
    (x y : NVector) (A : SUNMatrix)
    (hA : SUNMatrixNew_Band N mu ml smu mem0 = some A)
    (hmu0 : 0 ≤ mu) (hms : mu ≤ smu)
    (hx : nvLenOK x N = true) (hy : nvLenOK y N = true) :
    (zeroAddIdMatvec A x y).1 = 0 ∧
    ∀ i : Int, 0 ≤ i → i < N → (zeroAddIdMatvec A x y).2.data i = x.data i := by
  unfold SUNMatrixNew_Band at hA
  by_cases hbad : N ≤ 0 ∨ smu < 0 ∨ ml < 0
  · rw [if_pos hbad] at hA
    exact absurd hA (by simp)
  · rw [if_neg hbad] at hA
    push_neg at hbad
    obtain ⟨hN, hsmu, hml⟩ := hbad
    obtain rfl := Option.some.inj hA
    have h := bandRoundTrip_aux
      { id := SUNMatrix_ID.SUNMATRIX_BAND
      , content :=
        { M := N, N := N, mu := mu, ml := ml, s_mu := smu
        , ldim := smu + ml + 1, data := mem0, ldata := N * (smu + ml + 1)
        , cols := fun j => j * (smu + ml + 1) } } x y
      rfl rfl rfl rfl (fun j => rfl) hN hmu0 hms hml hx hy
    exact ⟨h.2.2.1, h.2.2.2⟩

/-- Claim C10 witness: the identity round trip on the concrete tridiagonal
3-by-3 matrix, read at component 1. -/
theorem zero_addid_matvec_identity_witness :
    (zeroAddIdMatvec Aw10 xw3 yw3).2.data 1 = xw3.data 1 :=
  (zero_addid_matvec_identity 3 1 1 1 gZero xw3 yw3 Aw10 rfl (by norm_num) (by norm_num)
    (by decide) (by decide)).2 1 (by norm_num) (by norm_num)

end Sundials
